import Mathlib

/-!
Verification of the ZenBudget transaction core (`src/script.js`).

The state-and-persistence layer of the tracker is embedded shallowly:
JavaScript numbers become rationals (`ℚ`), `parseFloat` results become
`Option ℚ` (`none` for `NaN`), dates become integer timestamps, the
IndexedDB object store becomes an explicit `List Txn` inside the state,
and every asynchronous store operation takes a boolean outcome flag
telling whether the underlying IndexedDB request succeeded.
-/

namespace ZenBudget

/-- A transaction record, mirroring the object literal built in
`addTransaction` (script.js lines 251-258). -/
structure Txn where
  id : ℚ
  name : String
  amount : ℚ
  category : String
  date : Int
  type : String
  deriving DecidableEq

/-- The module-level application state of script.js: the authoritative
in-memory list `transactions`, the view list `filteredTransactions`
(lines 4-5), and the contents of the IndexedDB object store. -/
structure AppState where
  transactions : List Txn
  filteredTransactions : List Txn
  store : List Txn
  deriving DecidableEq

/-- JavaScript `String.prototype.trim`: strip leading and trailing
whitespace (kernel-reducible, unlike `String.trim`). -/
def strTrim (s : String) : String :=
  ⟨((s.data.dropWhile Char.isWhitespace).reverse.dropWhile
      Char.isWhitespace).reverse⟩

/-- JavaScript `String.prototype.toLowerCase` (kernel-reducible,
unlike `String.toLower`). -/
def strToLower (s : String) : String :=
  ⟨s.data.map Char.toLower⟩

/-- IndexedDB `store.put` with `keyPath: 'id'`: replaces any record with
the same id, keeps the rest (saveTransaction, lines 129-151). -/
def storePut (t : Txn) (s : List Txn) : List Txn :=
  t :: s.filter (fun r => r.id != t.id)

/-- The `type` derivation of line 257: `amount >= 0 ? 'income' : 'expense'`. -/
def derivedType (amount : ℚ) : String :=
  if 0 ≤ amount then "income" else "expense"

/-- Outcome of `addTransaction`: early return on failed validation
(line 245-248), the catch branch reporting a store failure via an error
notification (lines 282-285), or success with the new transaction. -/
inductive AddResult where
  | validationError
  | storeError
  | ok (t : Txn)
  deriving DecidableEq

/-- Outcome of the other mutating operations: success, or the catch
branch reporting a rejected IndexedDB request. -/
inductive OpResult where
  | ok
  | storeError
  deriving DecidableEq

/-- Embedding of `addTransaction` (script.js lines 237-286).  `nameRaw` is the raw
input value before `.trim()`, `amountParsed` the `parseFloat` result
(`none` when `isNaN`), `newId` the generated id, `now` the current
timestamp, `storeOk` whether the `saveTransaction` promise resolves.
On validation failure or store failure nothing is mutated; on success
the transaction is unshifted onto `transactions` and
`filteredTransactions` becomes a copy of the updated list. -/
def addTransaction (st : AppState) (nameRaw : String) (amountParsed : Option ℚ)
    (category : String) (newId : ℚ) (now : Int) (storeOk : Bool) :
    AppState × AddResult :=
  let name := strTrim nameRaw
  match amountParsed with
  | none => (st, AddResult.validationError)
  | some amount =>
    if name = "" ∨ category = "" then
      (st, AddResult.validationError)
    else
      let t : Txn :=
        { id := newId, name := name, amount := amount, category := category,
          date := now, type := derivedType amount }
      if storeOk then
        ({ transactions := t :: st.transactions,
           filteredTransactions := t :: st.transactions,
           store := storePut t st.store }, AddResult.ok t)
      else
        (st, AddResult.storeError)

/-- Char-list prefix test (`==` on each character). -/
def charsPrefix : List Char → List Char → Bool
  | [], _ => true
  | _ :: _, [] => false
  | a :: p, b :: s => a == b && charsPrefix p s

/-- Char-list substring test: the pattern occurs at some position. -/
def charsContains (p : List Char) : List Char → Bool
  | [] => charsPrefix p []
  | b :: s => charsPrefix p (b :: s) || charsContains p s

/-- JavaScript `String.prototype.includes`. -/
def strIncludes (s pat : String) : Bool :=
  charsContains pat.data s.data

/-- The predicate of the `transactions.filter` callback in
`filterTransactions` (lines 295-299): the lowercased name, category or
type contains the search term. -/
def txnMatches (t : Txn) (searchTerm : String) : Bool :=
  strIncludes (strToLower t.name) searchTerm ||
  strIncludes (strToLower t.category) searchTerm ||
  strIncludes (strToLower t.type) searchTerm

/-- Embedding of `filterTransactions` (script.js lines 289-303): the search input
value is lowercased and trimmed; an empty term copies the full list,
otherwise `transactions` (never the previous view) is filtered. -/
def filterTransactions (st : AppState) (query : String) : AppState :=
  let searchTerm := strTrim (strToLower query)
  if searchTerm = "" then
    { st with filteredTransactions := st.transactions }
  else
    { st with filteredTransactions :=
        st.transactions.filter (fun t => txnMatches t searchTerm) }

/-- The delete-button handler inside `renderTransactions` (script.js
lines 326-346): `deleteTransaction(id)` runs against the store first;
only when it resolves are both arrays filtered by id. On rejection the
catch branch reports the error and mutates nothing. -/
def removeTransaction (st : AppState) (id : ℚ) (storeOk : Bool) :
    AppState × OpResult :=
  if storeOk then
    ({ transactions := st.transactions.filter (fun t => t.id != id),
       filteredTransactions := st.filteredTransactions.filter (fun t => t.id != id),
       store := st.store.filter (fun t => t.id != id) }, OpResult.ok)
  else
    (st, OpResult.storeError)

/-- Embedding of `clearAllTransactions` (script.js lines 515-538): clear the store,
then empty both arrays; on rejection the catch branch mutates nothing. -/
def clearAllTransactions (st : AppState) (storeOk : Bool) :
    AppState × OpResult :=
  if storeOk then
    ({ transactions := [], filteredTransactions := [], store := [] },
     OpResult.ok)
  else
    (st, OpResult.storeError)

/-- The sort comparator of line 113, `(a, b) => new Date(b.date) - new
Date(a.date)`: `a` sorts no later than `b` when `a`'s date is the
newer one. -/
def dateDesc (a b : Txn) : Bool :=
  b.date ≤ a.date

/-- Embedding of `loadTransactions` (script.js lines 96-126): on success the store
contents are sorted newest-first and copied into both arrays; on a
rejected `getAll` both arrays are emptied and the error is re-raised. -/
def loadTransactions (st : AppState) (storeOk : Bool) :
    AppState × OpResult :=
  if storeOk then
    let ts := st.store.mergeSort dateDesc
    ({ st with transactions := ts, filteredTransactions := ts }, OpResult.ok)
  else
    ({ st with transactions := [], filteredTransactions := [] },
     OpResult.storeError)

/-- Accumulator of the `reduce` in `updateBalance` (lines 392-399). -/
structure Totals where
  income : ℚ
  expense : ℚ
  deriving DecidableEq

/-- The totals computation of `updateBalance` (script.js lines 390-406):
income sums `amount` over `type === 'income'`, expense sums
`Math.abs(amount)` over the rest. -/
def totals (ts : List Txn) : Totals :=
  ts.foldl
    (fun acc t =>
      if t.type = "income" then { acc with income := acc.income + t.amount }
      else { acc with expense := acc.expense + |t.amount| })
    { income := 0, expense := 0 }

/-- The `totalBalance` of line 401. -/
def totalBalance (ts : List Txn) : ℚ :=
  (totals ts).income - (totals ts).expense

/-- The expense filter of `updateSpendingSummary` line 423. -/
def expenseTransactions (ts : List Txn) : List Txn :=
  ts.filter (fun t => t.type == "expense")

/-- The `totalExpenses` of lines 434-436: sum of `Math.abs(amount)` over the
expense transactions. -/
def totalExpenses (ts : List Txn) : ℚ :=
  (expenseTransactions ts).foldl (fun sum t => sum + |t.amount|) 0

/-- One step of the grouping loop of lines 439-449: `categories[category]
+= amount`, creating the key at the end on first occurrence (JavaScript
object insertion order for string keys). -/
def addToGroup (groups : List (String × ℚ)) (category : String) (amount : ℚ) :
    List (String × ℚ) :=
  match groups with
  | [] => [(category, amount)]
  | (c, a) :: rest =>
    if c = category then (c, a + amount) :: rest
    else (c, a) :: addToGroup rest category amount

/-- The `categories` object of lines 439-449 built from a transaction
list, as an association list in insertion order. -/
def groupByCategory (ts : List Txn) : List (String × ℚ) :=
  ts.foldl (fun gs t => addToGroup gs t.category |t.amount|) []

/-- One rendered category bar of lines 452-476. -/
structure CategoryBar where
  category : String
  amount : ℚ
  percentage : ℚ
  deriving DecidableEq

/-- Embedding of `updateSpendingSummary` (script.js lines 418-477) as the data it
renders: one bar per category of the expense transactions, with
`percentage = totalExpenses > 0 ? amount / totalExpenses * 100 : 0`
(line 453). -/
def updateSpendingSummary (ts : List Txn) : List CategoryBar :=
  let expenseTxns := expenseTransactions ts
  let total := totalExpenses ts
  (groupByCategory expenseTxns).map fun g =>
    { category := g.1, amount := g.2,
      percentage := if 0 < total then g.2 / total * 100 else 0 }

/-- Insertion order of the first occurrence of each element: the order
in which the grouping loop creates its keys. -/
def firstOccurrences (cs : List String) : List String :=
  cs.foldl (fun acc c => if c ∈ acc then acc else acc ++ [c]) []

/-- Sum of `Math.abs(amount)` over the expense transactions of one
category: the value `updateSpendingSummary` should display for it. -/
def categoryExpenseSum (ts : List Txn) (c : String) : ℚ :=
  (((expenseTransactions ts).filter (fun t => t.category = c)).map
    (fun t => |t.amount|)).sum

/-- The data-model well-formedness invariant of the spec: the stored
`type` always matches the sign of `amount` (the derivation of line 257). -/
def wfTxn (t : Txn) : Prop :=
  t.type = derivedType t.amount

instance (t : Txn) : Decidable (wfTxn t) := by
  unfold wfTxn; infer_instance

/-- The invariant relating the view list to the authoritative list:
everything shown is a real transaction. -/
def viewInvariant (st : AppState) : Prop :=
  ∀ t ∈ st.filteredTransactions, t ∈ st.transactions

/-- The filter semantics exactly as the specification claim words them:
an empty query returns the full list unmodified, otherwise the
transactions whose name, category or type contains the query itself
(not a trimmed copy) as a case-insensitive substring. -/
def claimFilterView (st : AppState) (query : String) : List Txn :=
  if query = "" then st.transactions
  else st.transactions.filter (fun t => txnMatches t (strToLower query))

/-- The transaction object literal of lines 251-258 for a valid input. -/
def newTxn (nameRaw : String) (a : ℚ) (category : String) (newId : ℚ)
    (now : Int) : Txn :=
  { id := newId, name := strTrim nameRaw, amount := a, category := category,
    date := now, type := derivedType a }

theorem addTransaction_valid_unfold (st : AppState) (nameRaw : String) (a : ℚ)
    (category : String) (newId : ℚ) (now : Int) (storeOk : Bool)
    (hname : strTrim nameRaw ≠ "") (hcat : category ≠ "") :
    addTransaction st nameRaw (some a) category newId now storeOk =
      if storeOk then
        ({ transactions := newTxn nameRaw a category newId now :: st.transactions,
           filteredTransactions := newTxn nameRaw a category newId now :: st.transactions,
           store := storePut (newTxn nameRaw a category newId now) st.store },
         AddResult.ok (newTxn nameRaw a category newId now))
      else (st, AddResult.storeError) := by
  simp [addTransaction, newTxn, hname, hcat]

/-- C1: for every valid input (name non-empty after trimming, amount that
parsed to a number, non-empty category), a successful add yields a
transaction whose type is income exactly when the amount is nonnegative,
grows the in-memory list by exactly one, and puts the new transaction at
its head. -/
theorem addTransaction_valid_spec (st : AppState) (nameRaw : String) (a : ℚ)
    (category : String) (newId : ℚ) (now : Int)
    (hname : strTrim nameRaw ≠ "") (hcat : category ≠ "") :
    ∃ t : Txn,
      (addTransaction st nameRaw (some a) category newId now true).2 = AddResult.ok t ∧
      t.type = (if 0 ≤ a then "income" else "expense") ∧
      (addTransaction st nameRaw (some a) category newId now true).1.transactions.length
        = st.transactions.length + 1 ∧
      (addTransaction st nameRaw (some a) category newId now true).1.transactions.head?
        = some t := by
  refine ⟨newTxn nameRaw a category newId now, ?_, ?_, ?_, ?_⟩ <;>
    simp [addTransaction_valid_unfold st nameRaw a category newId now true hname hcat,
      newTxn, derivedType]

/-- C1 witness: adding "Salary", 3500, "Income" to the empty state. -/
theorem addTransaction_valid_spec_witness :
    ∃ t : Txn,
      (addTransaction ⟨[], [], []⟩ "Salary" (some 3500) "Income" 1 0 true).2
        = AddResult.ok t ∧
      t.type = (if 0 ≤ (3500 : ℚ) then "income" else "expense") ∧
      (addTransaction ⟨[], [], []⟩ "Salary" (some 3500) "Income" 1 0 true).1.transactions.length
        = ([] : List Txn).length + 1 ∧
      (addTransaction ⟨[], [], []⟩ "Salary" (some 3500) "Income" 1 0 true).1.transactions.head?
        = some t :=
  addTransaction_valid_spec ⟨[], [], []⟩ "Salary" 3500 "Income" 1 0
    (by decide) (by decide)

/-- C3: whenever validation fails (name empty after trimming, amount not
parsing to a number, or category empty), add returns a validation error
and the whole state — in-memory lists and durable store alike — is
unchanged. -/
theorem addTransaction_invalid_spec (st : AppState) (nameRaw : String)
    (amountParsed : Option ℚ) (category : String) (newId : ℚ) (now : Int)
    (storeOk : Bool)
    (hbad : strTrim nameRaw = "" ∨ amountParsed = none ∨ category = "") :
    addTransaction st nameRaw amountParsed category newId now storeOk
      = (st, AddResult.validationError) := by
  match amountParsed with
  | none => simp [addTransaction]
  | some a =>
    rcases hbad with h | h | h
    · simp [addTransaction, h]
    · exact absurd h (by simp)
    · simp [addTransaction, h]

/-- C3 witness: the spec scenario add("", 10, "Food") fails with a
validation error and the empty state is untouched. -/
theorem addTransaction_invalid_spec_witness :
    addTransaction ⟨[], [], []⟩ "" (some 10) "Food" 1 0 true
      = (⟨[], [], []⟩, AddResult.validationError) :=
  addTransaction_invalid_spec ⟨[], [], []⟩ "" (some 10) "Food" 1 0 true
    (Or.inl (by decide))

/-- C4: for every valid input, when the durable-store write fails the
whole state — in particular the in-memory transaction list — is left
unchanged (memory is only touched after the write resolves) and the
failure is reported to add's caller as a store error. -/
theorem addTransaction_store_failure_spec (st : AppState) (nameRaw : String)
    (a : ℚ) (category : String) (newId : ℚ) (now : Int)
    (hname : strTrim nameRaw ≠ "") (hcat : category ≠ "") :
    addTransaction st nameRaw (some a) category newId now false
      = (st, AddResult.storeError) := by
  simp [addTransaction_valid_unfold st nameRaw a category newId now false hname hcat]

/-- C4 witness: a failing write for "Rent", -1200 leaves the empty state
unchanged and reports the store error. -/
theorem addTransaction_store_failure_spec_witness :
    addTransaction ⟨[], [], []⟩ "Rent" (some (-1200)) "Rent" 1 0 false
      = (⟨[], [], []⟩, AddResult.storeError) :=
  addTransaction_store_failure_spec ⟨[], [], []⟩ "Rent" (-1200) "Rent" 1 0
    (by decide) (by decide)

/-- C8: clearAll empties the durable store and both in-memory lists when
the store clear succeeds; when it fails, the state is completely
unchanged and the failure is reported to the caller. -/
theorem clearAllTransactions_spec (st : AppState) :
    clearAllTransactions st true = (⟨[], [], []⟩, OpResult.ok) ∧
    clearAllTransactions st false = (st, OpResult.storeError) := by
  constructor <;> simp [clearAllTransactions]

theorem totals_foldl_income_le (ts : List Txn) (acc : Totals)
    (h : ∀ t ∈ ts, t.type = derivedType t.amount) :
    acc.income ≤ (ts.foldl
      (fun acc t =>
        if t.type = "income" then { acc with income := acc.income + t.amount }
        else { acc with expense := acc.expense + |t.amount| }) acc).income := by
  induction ts generalizing acc with
  | nil => exact le_refl _
  | cons t ts ih =>
    simp only [List.foldl_cons]
    have hts : ∀ x ∈ ts, x.type = derivedType x.amount :=
      fun x hx => h x (List.mem_cons_of_mem _ hx)
    by_cases hty : t.type = "income"
    · have hamt : 0 ≤ t.amount := by
        by_contra hneg
        push_neg at hneg
        have hder := h t (List.mem_cons_self _ _)
        rw [hty, derivedType, if_neg (not_le.mpr hneg)] at hder
        exact absurd hder (by decide)
      have step : acc.income ≤ acc.income + t.amount := by linarith
      exact le_trans step (by simpa [hty] using ih { acc with income := acc.income + t.amount } hts)
    · simpa [hty] using ih { acc with expense := acc.expense + |t.amount| } hts

theorem totals_foldl_expense_le (ts : List Txn) (acc : Totals) :
    acc.expense ≤ (ts.foldl
      (fun acc t =>
        if t.type = "income" then { acc with income := acc.income + t.amount }
        else { acc with expense := acc.expense + |t.amount| }) acc).expense := by
  induction ts generalizing acc with
  | nil => exact le_refl _
  | cons t ts ih =>
    simp only [List.foldl_cons]
    by_cases hty : t.type = "income"
    · simpa [hty] using ih { acc with income := acc.income + t.amount }
    · have step : acc.expense ≤ acc.expense + |t.amount| := by
        have := abs_nonneg t.amount
        linarith
      exact le_trans step
        (by simpa [hty] using ih { acc with expense := acc.expense + |t.amount| })

/-- C2: for every transaction set satisfying the data-model invariant
(stored type matches the sign of the amount), the balance equals income
minus expense and both income and expense are nonnegative. -/
theorem totals_spec (ts : List Txn) (hwf : ∀ t ∈ ts, wfTxn t) :
    totalBalance ts = (totals ts).income - (totals ts).expense ∧
    0 ≤ (totals ts).income ∧ 0 ≤ (totals ts).expense := by
  refine ⟨rfl, ?_, ?_⟩
  · simpa [totals] using totals_foldl_income_le ts ⟨0, 0⟩ hwf
  · simpa [totals] using totals_foldl_expense_le ts ⟨0, 0⟩

/-- The spec's scenario data: a salary, the rent and the groceries. -/
def demoTxns : List Txn :=
  [{ id := 1, name := "Salary", amount := 3500, category := "Income",
     date := 7, type := "income" },
   { id := 2, name := "Rent", amount := -1200, category := "Rent",
     date := 6, type := "expense" },
   { id := 3, name := "Groceries", amount := -150, category := "Food",
     date := 5, type := "expense" }]

/-- C2 witness: the scenario transaction set. -/
theorem totals_spec_witness :
    totalBalance demoTxns
        = (totals demoTxns).income - (totals demoTxns).expense ∧
    0 ≤ (totals demoTxns).income ∧ 0 ≤ (totals demoTxns).expense :=
  totals_spec demoTxns (by decide)

theorem dateDesc_trans :
    ∀ a b c : Txn, dateDesc a b → dateDesc b c → dateDesc a c := by
  intro a b c hab hbc
  simp only [dateDesc, decide_eq_true_eq] at *
  omega

theorem dateDesc_total : ∀ a b : Txn, dateDesc a b || dateDesc b a := by
  intro a b
  simp only [dateDesc, Bool.or_eq_true, decide_eq_true_eq]
  omega

/-- C9: a successful load fills the in-memory list with exactly the
durable store's records sorted newest-first (every element's date is at
least the date of everything after it), mirrors them into the view
list, and leaves the store as it was; a failed load falls back to empty
in-memory lists while reporting the store error to the caller. -/
theorem loadTransactions_spec (st : AppState) :
    ((loadTransactions st true).1.transactions.Pairwise
        fun a b => b.date ≤ a.date) ∧
    (loadTransactions st true).1.transactions.Perm st.store ∧
    (loadTransactions st true).1.filteredTransactions
      = (loadTransactions st true).1.transactions ∧
    (loadTransactions st true).2 = OpResult.ok ∧
    loadTransactions st false
      = ({ st with transactions := [], filteredTransactions := [] },
         OpResult.storeError) := by
  refine ⟨?_, ?_, rfl, rfl, rfl⟩
  · have h := @List.sorted_mergeSort Txn dateDesc dateDesc_trans
      dateDesc_total st.store
    have h2 : (st.store.mergeSort dateDesc).Pairwise fun a b => b.date ≤ a.date :=
      h.imp (fun hab => by simpa [dateDesc] using hab)
    exact h2
  · exact List.mergeSort_perm st.store dateDesc

/-- C6 counterexample: removing an id that was never in the in-memory
list (id 99 against the demo data) succeeds as a silent no-op — the
code signals success, not a NotFoundError (no such error exists in it). -/
theorem removeTransaction_missing_id_counterexample :
    removeTransaction ⟨demoTxns, demoTxns, demoTxns⟩ 99 true
      = (⟨demoTxns, demoTxns, demoTxns⟩, OpResult.ok) := by decide

/-- C6 (amended): remove deletes from the durable store first and
touches memory only when the store deletion succeeds — on store failure
the whole state is unchanged and the error is reported; removing an id
absent from the in-memory list is a silent successful no-op (the code
has no NotFoundError). -/
theorem removeTransaction_spec (st : AppState) (id : ℚ) :
    removeTransaction st id false = (st, OpResult.storeError) ∧
    (removeTransaction st id true).1.transactions
      = st.transactions.filter (fun t => t.id != id) ∧
    (removeTransaction st id true).1.filteredTransactions
      = st.filteredTransactions.filter (fun t => t.id != id) ∧
    (removeTransaction st id true).1.store
      = st.store.filter (fun t => t.id != id) ∧
    (removeTransaction st id true).2 = OpResult.ok ∧
    (id ∉ st.transactions.map Txn.id →
      (removeTransaction st id true).1.transactions = st.transactions) := by
  refine ⟨by simp [removeTransaction], rfl, rfl, rfl, rfl, ?_⟩
  intro hid
  show st.transactions.filter _ = st.transactions
  apply List.filter_eq_self.mpr
  intro t ht
  simp only [bne_iff_ne, ne_eq]
  intro h
  exact hid (h ▸ List.mem_map_of_mem Txn.id ht)

/-- C6 witness: removing the unknown id 99 with a working store leaves
the demo in-memory list exactly as it was. -/
theorem removeTransaction_spec_witness :
    (removeTransaction ⟨demoTxns, demoTxns, demoTxns⟩ 99 true).1.transactions
      = demoTxns :=
  (removeTransaction_spec ⟨demoTxns, demoTxns, demoTxns⟩ 99).2.2.2.2.2
    (by decide)

/-- A lowercase transaction whose name contains "x" but not " x". -/
def axTxn : Txn :=
  { id := 1, name := "ax", amount := 5, category := "Food", date := 0,
    type := "income" }

/-- A state holding only `axTxn`, everywhere. -/
def axState : AppState :=
  ⟨[axTxn], [axTxn], [axTxn]⟩

/-- C7 counterexample: for the query " x" the code trims the search
term to "x" and returns the transaction named "ax", while the claim as
stated (match against the query itself) would return nothing. -/
theorem filterTransactions_claim_counterexample :
    (filterTransactions axState " x").filteredTransactions
      ≠ claimFilterView axState " x" := by decide

/-- C7 (amended): filter lowercases and trims the query first; a query
that is empty (or whitespace-only) returns the full list unmodified,
any other query returns exactly the transactions whose name, category
or type contains the trimmed query case-insensitively; the authoritative
list and the store are untouched, and the result depends only on the
full in-memory list, never on the previous filtered view. -/
theorem filterTransactions_spec (st : AppState) (query : String) :
    (filterTransactions st query).transactions = st.transactions ∧
    (filterTransactions st query).store = st.store ∧
    (strTrim (strToLower query) = "" →
      (filterTransactions st query).filteredTransactions = st.transactions) ∧
    (∀ t, t ∈ (filterTransactions st query).filteredTransactions ↔
      t ∈ st.transactions ∧
        (strTrim (strToLower query) = "" ∨
          txnMatches t (strTrim (strToLower query)) = true)) ∧
    (∀ st2 : AppState, st2.transactions = st.transactions →
      (filterTransactions st2 query).filteredTransactions
        = (filterTransactions st query).filteredTransactions) := by
  by_cases hq : strTrim (strToLower query) = ""
  · refine ⟨?_, ?_, ?_, ?_, ?_⟩
    · simp [filterTransactions, hq]
    · simp [filterTransactions, hq]
    · intro _; simp [filterTransactions, hq]
    · intro t; simp [filterTransactions, hq]
    · intro st2 h2; simp [filterTransactions, hq, h2]
  · refine ⟨?_, ?_, ?_, ?_, ?_⟩
    · simp [filterTransactions, hq]
    · simp [filterTransactions, hq]
    · intro h; exact absurd h hq
    · intro t
      simp [filterTransactions, hq, List.mem_filter]
    · intro st2 h2; simp [filterTransactions, hq, h2]

/-- C7 witness: the empty query leaves the demo view as the full list. -/
theorem filterTransactions_spec_witness :
    (filterTransactions axState "").filteredTransactions = [axTxn] :=
  (filterTransactions_spec axState "").2.2.1 (by decide)

/-- C10: if everything in the filtered view is a real transaction, then
after load, add, remove, clearAll or filter — whatever the inputs and
store outcomes — the view still only shows real transactions; and a
successful add resets the view to a copy of the full updated list. -/
theorem viewInvariant_spec (st : AppState) (hinv : viewInvariant st) :
    (∀ ok, viewInvariant (loadTransactions st ok).1) ∧
    (∀ nameRaw amountParsed category newId now ok,
      viewInvariant
        (addTransaction st nameRaw amountParsed category newId now ok).1) ∧
    (∀ id ok, viewInvariant (removeTransaction st id ok).1) ∧
    (∀ ok, viewInvariant (clearAllTransactions st ok).1) ∧
    (∀ query, viewInvariant (filterTransactions st query)) ∧
    (∀ nameRaw a category newId now,
      strTrim nameRaw ≠ "" → category ≠ "" →
      (addTransaction st nameRaw (some a) category newId now
          true).1.filteredTransactions
        = (addTransaction st nameRaw (some a) category newId now
            true).1.transactions) := by
  refine ⟨?_, ?_, ?_, ?_, ?_, ?_⟩
  · intro ok
    cases ok with
    | false => intro t ht; simp [loadTransactions] at ht
    | true => intro t ht; simpa [loadTransactions] using ht
  · intro nameRaw amountParsed category newId now ok
    match amountParsed with
    | none => intro t ht; exact hinv t ht
    | some a =>
      by_cases hval : strTrim nameRaw = "" ∨ category = ""
      · intro t ht
        simp only [addTransaction, hval, if_true] at ht ⊢
        exact hinv t ht
      · cases ok with
        | false => intro t ht; simp only [addTransaction, hval,
            if_false] at ht ⊢; exact hinv t ht
        | true => intro t ht; simpa [addTransaction, hval] using ht
  · intro id ok
    cases ok with
    | false => intro t ht; exact hinv t ht
    | true =>
      intro t ht
      simp only [removeTransaction, if_true] at ht ⊢
      rw [List.mem_filter] at ht ⊢
      exact ⟨hinv t ht.1, ht.2⟩
  · intro ok
    cases ok with
    | false => intro t ht; exact hinv t ht
    | true => intro _t ht; simp [clearAllTransactions] at ht
  · intro query t ht
    by_cases hq : strTrim (strToLower query) = ""
    · simp only [filterTransactions, hq, if_true] at ht ⊢
      exact ht
    · simp only [filterTransactions, hq, if_false] at ht ⊢
      exact (List.mem_filter.mp ht).1
  · intro nameRaw a category newId now hname hcat
    rw [addTransaction_valid_unfold st nameRaw a category newId now true
      hname hcat]
    simp

/-- C10 witness: the demo state satisfies the invariant and filtering it
by "food" keeps the view inside the authoritative list. -/
theorem viewInvariant_spec_witness :
    viewInvariant (filterTransactions ⟨demoTxns, demoTxns, demoTxns⟩ "food") :=
  (viewInvariant_spec ⟨demoTxns, demoTxns, demoTxns⟩
    (fun t ht => ht)).2.2.2.2.1 "food"

theorem addToGroup_snd_sum (gs : List (String × ℚ)) (c : String) (a : ℚ) :
    ((addToGroup gs c a).map Prod.snd).sum = (gs.map Prod.snd).sum + a := by
  induction gs with
  | nil => simp [addToGroup]
  | cons g rest ih =>
    obtain ⟨c0, a0⟩ := g
    by_cases h : c0 = c <;> simp [addToGroup, h, ih] <;> ring

theorem addToGroup_keys (gs : List (String × ℚ)) (c : String) (a : ℚ) :
    (addToGroup gs c a).map Prod.fst =
      if c ∈ gs.map Prod.fst then gs.map Prod.fst
      else gs.map Prod.fst ++ [c] := by
  induction gs with
  | nil => simp [addToGroup]
  | cons g rest ih =>
    obtain ⟨c0, a0⟩ := g
    by_cases h : c0 = c
    · simp [addToGroup, h]
    · have hcc : ¬ c = c0 := fun he => h he.symm
      by_cases hm : c ∈ rest.map Prod.fst <;>
        simp [addToGroup, h, ih, hm, hcc]

theorem addToGroup_filter_sum (gs : List (String × ℚ)) (c d : String)
    (a : ℚ) :
    (((addToGroup gs c a).filter (fun g => g.1 = d)).map Prod.snd).sum
      = ((gs.filter (fun g => g.1 = d)).map Prod.snd).sum
        + (if c = d then a else 0) := by
  induction gs with
  | nil => by_cases h : c = d <;> simp [addToGroup, h]
  | cons g rest ih =>
    obtain ⟨c0, a0⟩ := g
    by_cases h : c0 = c
    · subst h
      by_cases hd : c0 = d <;> simp [addToGroup, hd] <;> ring
    · by_cases hd : c0 = d
      · have hdc : ¬ d = c := fun he => h (hd.trans he)
        have hcd : ¬ c = d := fun he => h (hd.trans he.symm)
        simp [addToGroup, h, hd, hdc, hcd, ih]
      · simp [addToGroup, h, hd, ih]

/-- The grouping loop, with an explicit starting accumulator. -/
theorem groupFold_keys (ts : List Txn) (gs : List (String × ℚ)) :
    ((ts.foldl (fun gs t => addToGroup gs t.category |t.amount|) gs).map
        Prod.fst)
      = (ts.map Txn.category).foldl
          (fun acc c => if c ∈ acc then acc else acc ++ [c])
          (gs.map Prod.fst) := by
  induction ts generalizing gs with
  | nil => rfl
  | cons t ts ih =>
    simp only [List.foldl_cons, List.map_cons]
    rw [ih, addToGroup_keys]

theorem groupByCategory_keys (ts : List Txn) :
    (groupByCategory ts).map Prod.fst
      = firstOccurrences (ts.map Txn.category) := by
  simpa using groupFold_keys ts []

theorem occFold_nodup (cs : List String) (acc : List String)
    (hacc : acc.Nodup) :
    (cs.foldl (fun acc c => if c ∈ acc then acc else acc ++ [c])
      acc).Nodup := by
  induction cs generalizing acc with
  | nil => exact hacc
  | cons c cs ih =>
    simp only [List.foldl_cons]
    by_cases h : c ∈ acc
    · simpa [h] using ih acc hacc
    · refine ih _ ?_
      rw [if_neg h]
      simp [List.nodup_append, hacc, h]

theorem groupByCategory_keys_nodup (ts : List Txn) :
    ((groupByCategory ts).map Prod.fst).Nodup := by
  rw [groupByCategory_keys]
  exact occFold_nodup (ts.map Txn.category) [] List.nodup_nil

theorem groupFold_filter_sum (ts : List Txn) (gs : List (String × ℚ))
    (d : String) :
    (((ts.foldl (fun gs t => addToGroup gs t.category |t.amount|)
          gs).filter (fun g => g.1 = d)).map Prod.snd).sum
      = ((gs.filter (fun g => g.1 = d)).map Prod.snd).sum
        + ((ts.filter (fun t => t.category = d)).map
            (fun t => |t.amount|)).sum := by
  induction ts generalizing gs with
  | nil => simp
  | cons t ts ih =>
    simp only [List.foldl_cons]
    rw [ih, addToGroup_filter_sum]
    by_cases h : t.category = d <;> simp [h] <;> ring

theorem groupByCategory_filter_sum (ts : List Txn) (d : String) :
    (((groupByCategory ts).filter (fun g => g.1 = d)).map Prod.snd).sum
      = ((ts.filter (fun t => t.category = d)).map
          (fun t => |t.amount|)).sum := by
  simpa using groupFold_filter_sum ts [] d

theorem groupFold_snd_sum (ts : List Txn) (gs : List (String × ℚ)) :
    ((ts.foldl (fun gs t => addToGroup gs t.category |t.amount|) gs).map
        Prod.snd).sum
      = (gs.map Prod.snd).sum + (ts.map fun t => |t.amount|).sum := by
  induction ts generalizing gs with
  | nil => simp
  | cons t ts ih =>
    simp only [List.foldl_cons, List.map_cons, List.sum_cons]
    rw [ih, addToGroup_snd_sum]
    ring

theorem groupByCategory_snd_sum (ts : List Txn) :
    ((groupByCategory ts).map Prod.snd).sum
      = (ts.map fun t => |t.amount|).sum := by
  simpa using groupFold_snd_sum ts []

theorem filter_key_eq_of_nodup (gs : List (String × ℚ))
    (hnd : (gs.map Prod.fst).Nodup) (g : String × ℚ) (hg : g ∈ gs) :
    gs.filter (fun x => x.1 = g.1) = [g] := by
  induction gs with
  | nil => cases hg
  | cons g0 rest ih =>
    simp only [List.map_cons, List.nodup_cons] at hnd
    rcases List.mem_cons.mp hg with rfl | hmem
    · have hrest : rest.filter (fun x => x.1 = g.1) = [] := by
        rw [List.filter_eq_nil_iff]
        intro x hx hx1
        simp only [decide_eq_true_eq] at hx1
        exact hnd.1 (hx1 ▸ List.mem_map_of_mem Prod.fst hx)
      simp [List.filter_cons, hrest]
    · have hne : g.1 ≠ g0.1 := by
        intro he
        exact hnd.1 (he ▸ List.mem_map_of_mem Prod.fst hmem)
      rw [List.filter_cons, if_neg (by simpa using hne.symm)]
      exact ih hnd.2 hmem

theorem foldl_add_abs (l : List Txn) (x : ℚ) :
    l.foldl (fun sum t => sum + |t.amount|) x
      = x + (l.map fun t => |t.amount|).sum := by
  induction l generalizing x with
  | nil => simp
  | cons t l ih => simp [ih]; ring

theorem totalExpenses_eq_sum (ts : List Txn) :
    totalExpenses ts
      = ((expenseTransactions ts).map fun t => |t.amount|).sum := by
  simpa [totalExpenses] using foldl_add_abs (expenseTransactions ts) 0

/-- C5: the spending summary is computed only from the expense
transactions, grouped by category in first-occurrence insertion order
with each group summing Math.abs(amount); when total expenses are
positive every percentage equals amount / totalExpenses * 100 and the
percentage-weighted amounts sum back to totalExpenses; when total
expenses are zero every percentage is zero. -/
theorem updateSpendingSummary_spec (ts : List Txn) :
    ((updateSpendingSummary ts).map CategoryBar.category
      = firstOccurrences ((expenseTransactions ts).map Txn.category)) ∧
    (∀ b ∈ updateSpendingSummary ts,
      b.amount = categoryExpenseSum ts b.category) ∧
    (0 < totalExpenses ts → ∀ b ∈ updateSpendingSummary ts,
      b.percentage = b.amount / totalExpenses ts * 100) ∧
    (0 < totalExpenses ts →
      ((updateSpendingSummary ts).map
          (fun b => b.percentage * totalExpenses ts / 100)).sum
        = totalExpenses ts) ∧
    (totalExpenses ts = 0 → ∀ b ∈ updateSpendingSummary ts,
      b.percentage = 0) := by
  refine ⟨?_, ?_, ?_, ?_, ?_⟩
  · rw [← groupByCategory_keys]
    simp [updateSpendingSummary, List.map_map, Function.comp]
  · intro b hb
    simp only [updateSpendingSummary, List.mem_map] at hb
    obtain ⟨g, hg, rfl⟩ := hb
    have hkey := filter_key_eq_of_nodup (groupByCategory (expenseTransactions ts))
      (groupByCategory_keys_nodup (expenseTransactions ts)) g hg
    have hsum := groupByCategory_filter_sum (expenseTransactions ts) g.1
    rw [hkey] at hsum
    simp only [List.map_cons, List.map_nil, List.sum_cons, List.sum_nil,
      add_zero] at hsum
    simpa [categoryExpenseSum, expenseTransactions] using hsum
  · intro hTE b hb
    simp only [updateSpendingSummary, List.mem_map] at hb
    obtain ⟨g, hg, rfl⟩ := hb
    simp [if_pos hTE]
  · intro hTE
    have hne : totalExpenses ts ≠ 0 := ne_of_gt hTE
    have hmap : ((updateSpendingSummary ts).map
        (fun b => b.percentage * totalExpenses ts / 100))
        = (groupByCategory (expenseTransactions ts)).map Prod.snd := by
      simp only [updateSpendingSummary, List.map_map]
      apply List.map_congr_left
      intro g hg
      simp only [Function.comp, if_pos hTE]
      field_simp
    rw [hmap, groupByCategory_snd_sum, ← totalExpenses_eq_sum]
  · intro h0 b hb
    simp only [updateSpendingSummary, List.mem_map] at hb
    obtain ⟨g, hg, rfl⟩ := hb
    simp [h0]

/-- C5 witness: on the demo data total expenses are positive and the
percentage-weighted amounts sum back to them. -/
theorem updateSpendingSummary_spec_witness :
    ((updateSpendingSummary demoTxns).map
        (fun b => b.percentage * totalExpenses demoTxns / 100)).sum
      = totalExpenses demoTxns :=
  (updateSpendingSummary_spec demoTxns).2.2.2.1
    (by simp [totalExpenses, expenseTransactions, demoTxns]; norm_num)

end ZenBudget
